import Mathlib

/-!
Shallow embedding of `src/imitation/policies/trainer.py` (class `AgentTrainer`).

The trainer wraps a stable-baselines algorithm's vectorized environment with a
`BufferingWrapper` (records episodes with the environment's true rewards) and,
outside it, a `RewardVecEnvWrapper` (returns rewards computed by a supplied
reward function instead of the environment's own).  `train` resets the wrapped
chain, delegates to the algorithm's `learn`, and returns the trajectories the
buffer accumulated during the call.

`BufferingWrapper` and `RewardVecEnvWrapper` belong to this repository but are
not part of the sources in scope; their dynamics below are modelled from the
spec (see the doc comments on `stepEnvs`, `chainStep`, `chainReset`,
`AgentTrainer.popTrajectories`).  Python object mutation is rendered as
explicit state passing; a raised exception is an `Except.error` carrying the
exception message.  Object identity of finalized trajectory values is modelled
by a ghost id counter (`tid` / `created`): Python allocates a fresh trajectory
object per finalization, which the counter mirrors.
-/

namespace Imitation

abbrev Obs := Int
abbrev Act := Int

/-- Opaque keyword arguments forwarded by `train` to `BaseAlgorithm.learn`. -/
abbrev KwArgs := List (String × Int)

/-- `RewardFn` capability: a batch of transitions
(previous observations, actions, next observations, done flags) to a batch of
rewards.  A Python exception raised by the function is an `Except.error`. -/
def RewardFn := List Obs → List Act → List Obs → List Bool → Except String (List Int)

/-- A `RewardNet`: a learned reward model exposing a `predict` method with the
`RewardFn` signature. -/
structure RewardNet where
  predict : RewardFn

/-- The `reward_fn` argument of `AgentTrainer.__init__`: either a plain
`RewardFn` or a `RewardNet` instance (`Union[RewardFn, RewardNet]`). -/
inductive RewardSource where
  | fn (f : RewardFn)
  | net (n : RewardNet)

/-- Dynamics of a raw vectorized environment over `numEnvs` sub-environments.
`stepFn` maps the step counter since the last reset and the action batch to
(next observations, true rewards, done flags); the environment is deterministic
given that counter, matching the synchronous batched interface the core
consumes. -/
structure VecEnvCore where
  numEnvs : Nat
  resetObs : List Obs
  stepFn : Nat → List Act → List Obs × List Int × List Bool

/-- The shape of an environment handle the algorithm can hold: a raw
vectorized environment, a non-vectorized environment (fails the
`isinstance(venv, vec_env.VecEnv)` check), or one of the two wrappers. -/
inductive Env where
  | vecEnv (core : VecEnvCore)
  | plain
  | bufferingWrapper (inner : Env)
  | rewardVecEnvWrapper (inner : Env) (rf : RewardFn)

/-- `isinstance(e, vec_env.VecEnv)`: wrappers are `VecEnv` subclasses, a
non-vectorized environment is not. -/
def Env.isVecEnv : Env → Bool
  | .plain => false
  | _ => true

/-- `isinstance(algorithm.get_env(), vec_env.VecEnv)`; `get_env` may return
`None`, which is not a `VecEnv` instance. -/
def isVecEnvInstance : Option Env → Bool
  | none => false
  | some e => e.isVecEnv

/-- The raw dynamics at the base of a handle (used to run the wrapped chain). -/
def Env.baseCore : Env → VecEnvCore
  | .vecEnv c => c
  | .plain => ⟨0, [], fun _ _ => ([], [], [])⟩
  | .bufferingWrapper e => e.baseCore
  | .rewardVecEnvWrapper e _ => e.baseCore

/-- The stable-baselines algorithm, as the capability surface the trainer
consumes: `env` (read by `get_env`, written by `set_env`), the `policy`
attribute (a reference, modelled by an identifier), the action choice the
algorithm makes at each step of `learn` (a function of the forwarded keyword
arguments, the step index and the current observation batch), and an injected
failure point: `learn` raises `errMsg` just before performing step `failAt`. -/
structure Algorithm where
  env : Option Env
  policy : Nat
  act : KwArgs → Nat → List Obs → List Act
  failAt : Option Nat
  errMsg : String

/-- A finalized episode, as recorded by the buffering layer: per-step
observations, actions and rewards, a terminal marker, and the ghost object
id `tid`. -/
structure TrajectoryWithRew where
  obs : List Obs
  acts : List Act
  rews : List Int
  terminal : Bool
  tid : Nat
deriving Repr, DecidableEq

/-- The running (not yet finalized) episode of one sub-environment. -/
structure EpisodeAcc where
  obs : List Obs
  acts : List Act
  rews : List Int
deriving Repr, DecidableEq

def emptyAcc : EpisodeAcc := ⟨[], [], []⟩

/-- Mutable state of the wrapper objects created at construction: the raw
environment's step counter, the buffering layer's last observation batch,
per-sub-environment running episodes and queue of finalized trajectories, the
substitution layer's last observation batch, and the ghost id counter. -/
structure ChainState where
  envT : Nat
  lastObsBuf : List Obs
  eps : List EpisodeAcc
  queue : List TrajectoryWithRew
  lastObsRw : List Obs
  created : Nat
deriving Repr, DecidableEq

/-- Modelled from the spec (BufferingWrapper, one step): per sub-environment,
append the (previous observation, action, true reward) transition to the
running episode; where the done flag is set, finalize the episode as a
`TrajectoryWithRew` (assigning the next ghost id) and restart the
accumulator.  Arguments: done flags, running episodes, previous observations,
actions, true rewards, ghost id counter; returns the new running episodes, the
trajectories finalized this step (in sub-environment order) and the new
counter. -/
def stepEnvs : List Bool → List EpisodeAcc → List Obs → List Act → List Int → Nat →
    List EpisodeAcc × List TrajectoryWithRew × Nat
  | d :: ds, e :: es, p :: ps, a :: as1, r :: rs1, cnt =>
    let acc : EpisodeAcc := ⟨e.obs ++ [p], e.acts ++ [a], e.rews ++ [r]⟩
    if d then
      let rest := stepEnvs ds es ps as1 rs1 (cnt + 1)
      (emptyAcc :: rest.1, ⟨acc.obs, acc.acts, acc.rews, true, cnt⟩ :: rest.2.1, rest.2.2)
    else
      let rest := stepEnvs ds es ps as1 rs1 cnt
      (acc :: rest.1, rest.2.1, rest.2.2)
  | _, _, _, _, _, cnt => ([], [], cnt)

/-- Modelled from the spec (one step of the wrapped chain, outermost call at
the RewardVecEnvWrapper): the raw environment steps, the buffering layer
records the true transition (and finalizes episodes where done), then the
substitution layer computes the substituted reward batch from the true
transition and returns it in place of the true rewards.  The buffering
layer's state is updated before the reward function runs, so a raised reward
function leaves the recorded state in place (first component) while the error
propagates (second component). -/
def chainStep (core : VecEnvCore) (rf : RewardFn) (st : ChainState) (acts : List Act) :
    ChainState × Except String (List Obs × List Int × List Bool) :=
  let r := core.stepFn st.envT acts
  let obsN := r.1
  let rews := r.2.1
  let dones := r.2.2
  let s := stepEnvs dones st.eps st.lastObsBuf acts rews st.created
  let st' : ChainState :=
    { envT := st.envT + 1, lastObsBuf := obsN, eps := s.1, queue := st.queue ++ s.2.1,
      lastObsRw := obsN, created := s.2.2 }
  match rf st.lastObsRw acts obsN dones with
  | .error e => (st', .error e)
  | .ok sub => (st', .ok (obsN, sub, dones))

/-- Modelled from the spec (`self.venv.reset()` cascading through both
wrappers): the raw environment restarts, the buffering layer clears its queued
and running state and records the fresh observations, the substitution layer
records them too.  The ghost id counter is object identity, not program state,
and is preserved. -/
def chainReset (core : VecEnvCore) (st : ChainState) : ChainState :=
  { envT := 0, lastObsBuf := core.resetObs,
    eps := List.replicate core.numEnvs emptyAcc, queue := [],
    lastObsRw := core.resetObs, created := st.created }

/-- `BaseAlgorithm.learn(total_timesteps, **kwargs)` driving the wrapped
chain: at each step the algorithm chooses an action batch from the forwarded
keyword arguments, the step index and the current observations, and steps the
chain; it raises `errMsg` just before step `failAt`, and any error from the
chain (a raised reward function) propagates.  Returns the chain state at
return or raise time together with the outcome. -/
def learnLoop (core : VecEnvCore) (rf : RewardFn) (a : Algorithm) (k : KwArgs) :
    Nat → Nat → List Obs → ChainState → ChainState × Except String Unit
  | 0, _, _, st => (st, .ok ())
  | Nat.succ m, i, obs, st =>
    if a.failAt = some i then (st, .error a.errMsg)
    else
      match chainStep core rf st (a.act k i obs) with
      | (st', .error e) => (st', .error e)
      | (st', .ok out) => learnLoop core rf a k m (i + 1) out.1 st'

/-- The `AgentTrainer` object: the algorithm, the bound reward function, the
two wrapper instances created at construction (`buffering_wrapper`, `venv`),
the raw dynamics at the base of the chain, and the wrappers' mutable state. -/
structure AgentTrainer where
  algorithm : Algorithm
  reward_fn : RewardFn
  buffering_wrapper : Env
  venv : Env
  origEnv : VecEnvCore
  chain : ChainState

/-- `AgentTrainer.__init__`, with the state of the `algorithm` object at
return (or raise) time threaded explicitly as the second component: store the
algorithm; if the reward source is a `RewardNet`, take its `predict` method;
retrieve the algorithm's environment and raise `ValueError` if it is not a
`VecEnv` instance (the algorithm is then untouched); otherwise wrap it in a
`BufferingWrapper`, wrap that in a `RewardVecEnvWrapper` parameterized by the
bound reward function, and rebind the algorithm's environment to the outer
wrapper. -/
def AgentTrainer.initCore (algorithm : Algorithm) (rs : RewardSource) :
    Except String AgentTrainer × Algorithm :=
  let rf : RewardFn := match rs with | .net n => n.predict | .fn f => f
  match algorithm.env with
  | some venv =>
    if venv.isVecEnv then
      let bw := Env.bufferingWrapper venv
      let rw := Env.rewardVecEnvWrapper bw rf
      let alg2 := { algorithm with env := some rw }
      (.ok { algorithm := alg2, reward_fn := rf, buffering_wrapper := bw, venv := rw,
             origEnv := venv.baseCore,
             chain := { envT := 0, lastObsBuf := [], eps := [], queue := [],
                        lastObsRw := [], created := 0 } },
       alg2)
    else (.error "The environment for the agent algorithm must be set.", algorithm)
  | none => (.error "The environment for the agent algorithm must be set.", algorithm)

/-- `AgentTrainer._pop_trajectories`, delegating to the buffering layer's
drain (modelled from the spec): return all currently queued finalized
trajectories and clear the queue. -/
def AgentTrainer.popTrajectories (t : AgentTrainer) :
    List TrajectoryWithRew × AgentTrainer :=
  (t.chain.queue, { t with chain := { t.chain with queue := [] } })

/-- `AgentTrainer.train(total_timesteps, **kwargs)`: reset the wrapped chain
(`self.venv.reset()`), run `self.algorithm.learn(total_timesteps, **kwargs)`,
then drain and return the buffered trajectories.  An error raised by `learn`
propagates; the trainer's state at raise time is the second component. -/
def AgentTrainer.train (t : AgentTrainer) (total_timesteps : Nat) (k : KwArgs) :
    Except String (List TrajectoryWithRew) × AgentTrainer :=
  let st0 := chainReset t.origEnv t.chain
  match learnLoop t.origEnv t.reward_fn t.algorithm k total_timesteps 0 t.origEnv.resetObs st0 with
  | (st1, .error e) => (.error e, { t with chain := st1 })
  | (st1, .ok _) =>
    let t1 : AgentTrainer := { t with chain := st1 }
    let p := t1.popTrajectories
    (.ok p.1, p.2)

/-- The `policy` property: `return self.algorithm.policy`. -/
def AgentTrainer.policy (t : AgentTrainer) : Nat := t.algorithm.policy

/-- An operation a caller can perform on a live trainer. -/
inductive TrainerOp where
  | train (n : Nat) (k : KwArgs)
  | pop

/-- The trainer state after performing one operation. -/
def applyOp (t : AgentTrainer) : TrainerOp → AgentTrainer
  | .train n k => (t.train n k).2
  | .pop => t.popTrajectories.2

/-- The trainer state after a sequence of operations. -/
def applyOps (t : AgentTrainer) (ops : List TrainerOp) : AgentTrainer :=
  ops.foldl applyOp t

/-! ### Reference definitions

`bufLoop` is the spec-side reference for the refinement claims: the
trajectory-recording layer driven directly on the raw environment, with no
substitution layer present, so the rewards it records are by construction the
environment's own. -/

/-- State of the buffering layer alone (no substitution layer). -/
structure BufState where
  envT : Nat
  lastObs : List Obs
  eps : List EpisodeAcc
  queue : List TrajectoryWithRew
  created : Nat
deriving Repr, DecidableEq

/-- The buffering-relevant part of a chain state. -/
def proj (st : ChainState) : BufState :=
  ⟨st.envT, st.lastObsBuf, st.eps, st.queue, st.created⟩

/-- Modelled from the spec: one step of the buffering layer directly on the
raw environment — record the true transition, finalize done episodes, and
hand the true rewards outward unchanged. -/
def bufStep (core : VecEnvCore) (st : BufState) (acts : List Act) :
    BufState × (List Obs × List Int × List Bool) :=
  let r := core.stepFn st.envT acts
  let s := stepEnvs r.2.2 st.eps st.lastObs acts r.2.1 st.created
  ({ envT := st.envT + 1, lastObs := r.1, eps := s.1, queue := st.queue ++ s.2.1,
     created := s.2.2 }, r)

/-- Modelled from the spec: the recording run without substitution, driven by
the same action choices as `learnLoop`. -/
def bufLoop (core : VecEnvCore) (a : Algorithm) (k : KwArgs) :
    Nat → Nat → List Obs → BufState → BufState
  | 0, _, _, st => st
  | Nat.succ m, i, obs, st =>
    let r := bufStep core st (a.act k i obs)
    bufLoop core a k m (i + 1) r.2.1 r.1

/-- Modelled from the spec: the trajectories, carrying the environment's true
rewards, that the recording layer finalizes during `n` steps from a fresh
reset, with ghost ids starting at `c0`. -/
def bufOnlyTrajectories (core : VecEnvCore) (a : Algorithm) (k : KwArgs)
    (n : Nat) (c0 : Nat) : List TrajectoryWithRew :=
  (bufLoop core a k n 0 core.resetObs
    { envT := 0, lastObs := core.resetObs,
      eps := List.replicate core.numEnvs emptyAcc, queue := [], created := c0 }).queue

/-- The raw trace of `(observations, rewards, done flags)` batches the
environment emits over `m` steps when driven by the algorithm's action
choices, starting at step index `i` with observation batch `obs`. -/
def rawTrace (core : VecEnvCore) (a : Algorithm) (k : KwArgs) :
    Nat → Nat → List Obs → List (List Obs × List Int × List Bool)
  | 0, _, _ => []
  | Nat.succ m, i, obs =>
    let r := core.stepFn i (a.act k i obs)
    r :: rawTrace core a k m (i + 1) r.1

/-- Total number of done=true flags the environment emits over `n` steps from
reset, across all sub-environments. -/
def doneCountN (core : VecEnvCore) (a : Algorithm) (k : KwArgs) (n : Nat) : Nat :=
  ((rawTrace core a k n 0 core.resetObs).map (fun x => x.2.2.count true)).sum

/-- A coherent vectorized environment: every batch it produces has one entry
per sub-environment. -/
def VecEnvCore.WF (c : VecEnvCore) : Prop :=
  c.resetObs.length = c.numEnvs ∧
  ∀ t acts, (c.stepFn t acts).1.length = c.numEnvs ∧
    (c.stepFn t acts).2.1.length = c.numEnvs ∧
    (c.stepFn t acts).2.2.length = c.numEnvs

/-- The algorithm always supplies one action per sub-environment. -/
def actWF (a : Algorithm) (c : VecEnvCore) : Prop :=
  ∀ k i obs, (a.act k i obs).length = c.numEnvs

/-! ### Concrete instances -/

/-- A small concrete environment: two sub-environments with distinct reward
streams; the first terminates at odd step counters, the second when the
counter is 2 mod 3. -/
def demoCore : VecEnvCore where
  numEnvs := 2
  resetObs := [10, 20]
  stepFn := fun t _acts =>
    ([(t : Int) + 100, (t : Int) + 200],
     [(t : Int) * (t : Int), (t : Int) + 3],
     [decide (t % 2 = 1), decide (t % 3 = 2)])

/-- A concrete algorithm bound to `demoCore` that never raises. -/
def demoAlg : Algorithm where
  env := some (.vecEnv demoCore)
  policy := 7
  act := fun _ i _ => [(i : Int), 0]
  failAt := none
  errMsg := "boom"

/-- A concrete reward function whose output (constantly 1000) differs from
every true reward `demoCore` emits. -/
def demoRf : RewardFn := fun _o _a _n _d => .ok [1000, 1000]

/-- The trainer `AgentTrainer.initCore demoAlg (.fn demoRf)` constructs. -/
def demoTrainer : AgentTrainer where
  algorithm :=
    { demoAlg with
      env := some (.rewardVecEnvWrapper (.bufferingWrapper (.vecEnv demoCore)) demoRf) }
  reward_fn := demoRf
  buffering_wrapper := .bufferingWrapper (.vecEnv demoCore)
  venv := .rewardVecEnvWrapper (.bufferingWrapper (.vecEnv demoCore)) demoRf
  origEnv := demoCore
  chain := { envT := 0, lastObsBuf := [], eps := [], queue := [], lastObsRw := [], created := 0 }

/-- Sanity: `demoTrainer` is what construction from `demoAlg` produces. -/
lemma demoTrainer_init :
    AgentTrainer.initCore demoAlg (.fn demoRf) = (.ok demoTrainer, demoTrainer.algorithm) := rfl

/-! ### Reduction lemmas for `stepEnvs` -/

lemma stepEnvs_nil_dones (es : List EpisodeAcc) (ps : List Obs) (as1 : List Act)
    (rs1 : List Int) (cnt : Nat) : stepEnvs [] es ps as1 rs1 cnt = ([], [], cnt) := rfl

lemma stepEnvs_nil_eps (d : Bool) (ds : List Bool) (ps : List Obs) (as1 : List Act)
    (rs1 : List Int) (cnt : Nat) : stepEnvs (d :: ds) [] ps as1 rs1 cnt = ([], [], cnt) := rfl

lemma stepEnvs_nil_pos (d : Bool) (ds : List Bool) (e : EpisodeAcc) (es : List EpisodeAcc)
    (as1 : List Act) (rs1 : List Int) (cnt : Nat) :
    stepEnvs (d :: ds) (e :: es) [] as1 rs1 cnt = ([], [], cnt) := rfl

lemma stepEnvs_nil_acts (d : Bool) (ds : List Bool) (e : EpisodeAcc) (es : List EpisodeAcc)
    (p : Obs) (ps : List Obs) (rs1 : List Int) (cnt : Nat) :
    stepEnvs (d :: ds) (e :: es) (p :: ps) [] rs1 cnt = ([], [], cnt) := rfl

lemma stepEnvs_nil_rews (d : Bool) (ds : List Bool) (e : EpisodeAcc) (es : List EpisodeAcc)
    (p : Obs) (ps : List Obs) (a : Act) (as1 : List Act) (cnt : Nat) :
    stepEnvs (d :: ds) (e :: es) (p :: ps) (a :: as1) [] cnt = ([], [], cnt) := rfl

lemma stepEnvs_done (ds : List Bool) (e : EpisodeAcc) (es : List EpisodeAcc) (p : Obs)
    (ps : List Obs) (a : Act) (as1 : List Act) (r : Int) (rs1 : List Int) (cnt : Nat) :
    stepEnvs (true :: ds) (e :: es) (p :: ps) (a :: as1) (r :: rs1) cnt =
      (emptyAcc :: (stepEnvs ds es ps as1 rs1 (cnt + 1)).1,
       ⟨e.obs ++ [p], e.acts ++ [a], e.rews ++ [r], true, cnt⟩ ::
         (stepEnvs ds es ps as1 rs1 (cnt + 1)).2.1,
       (stepEnvs ds es ps as1 rs1 (cnt + 1)).2.2) := rfl

lemma stepEnvs_cont (ds : List Bool) (e : EpisodeAcc) (es : List EpisodeAcc) (p : Obs)
    (ps : List Obs) (a : Act) (as1 : List Act) (r : Int) (rs1 : List Int) (cnt : Nat) :
    stepEnvs (false :: ds) (e :: es) (p :: ps) (a :: as1) (r :: rs1) cnt =
      (⟨e.obs ++ [p], e.acts ++ [a], e.rews ++ [r]⟩ :: (stepEnvs ds es ps as1 rs1 cnt).1,
       (stepEnvs ds es ps as1 rs1 cnt).2.1,
       (stepEnvs ds es ps as1 rs1 cnt).2.2) := rfl

/-- The ghost id counter only grows across one buffering step, every
trajectory finalized in the step has its id in the window the counter moved
through, and every such trajectory is terminal. -/
lemma stepEnvs_ids (ds : List Bool) :
    ∀ (es : List EpisodeAcc) (ps : List Obs) (as1 : List Act) (rs1 : List Int) (cnt : Nat),
      cnt ≤ (stepEnvs ds es ps as1 rs1 cnt).2.2 ∧
      ∀ tr ∈ (stepEnvs ds es ps as1 rs1 cnt).2.1,
        (cnt ≤ tr.tid ∧ tr.tid < (stepEnvs ds es ps as1 rs1 cnt).2.2) ∧
        tr.terminal = true := by
  induction ds with
  | nil =>
    intro es ps as1 rs1 cnt
    exact ⟨Nat.le_refl _, by intro tr h; simp [stepEnvs_nil_dones] at h⟩
  | cons d ds ih =>
    intro es ps as1 rs1 cnt
    cases es with
    | nil => exact ⟨Nat.le_refl _, by intro tr h; simp [stepEnvs_nil_eps] at h⟩
    | cons e es =>
      cases ps with
      | nil => exact ⟨Nat.le_refl _, by intro tr h; simp [stepEnvs_nil_pos] at h⟩
      | cons p ps =>
        cases as1 with
        | nil => exact ⟨Nat.le_refl _, by intro tr h; simp [stepEnvs_nil_acts] at h⟩
        | cons a as1 =>
          cases rs1 with
          | nil => exact ⟨Nat.le_refl _, by intro tr h; simp [stepEnvs_nil_rews] at h⟩
          | cons r rs1 =>
            cases d with
            | false =>
              obtain ⟨ihc, iht⟩ := ih es ps as1 rs1 cnt
              rw [stepEnvs_cont]
              exact ⟨ihc, iht⟩
            | true =>
              obtain ⟨ihc, iht⟩ := ih es ps as1 rs1 (cnt + 1)
              rw [stepEnvs_done]
              dsimp only
              refine ⟨by omega, ?_⟩
              intro tr h
              rcases List.mem_cons.mp h with h' | h'
              · subst h'
                exact ⟨⟨Nat.le_refl _, ihc⟩, rfl⟩
              · obtain ⟨⟨h1, h2⟩, h3⟩ := iht tr h'
                exact ⟨⟨by omega, h2⟩, h3⟩

/-- With one entry per sub-environment in every batch, one buffering step
finalizes exactly one trajectory per done flag and keeps one running episode
per sub-environment. -/
lemma stepEnvs_len (ds : List Bool) :
    ∀ (es : List EpisodeAcc) (ps : List Obs) (as1 : List Act) (rs1 : List Int) (cnt : Nat),
      es.length = ds.length → ps.length = ds.length → as1.length = ds.length →
      rs1.length = ds.length →
      (stepEnvs ds es ps as1 rs1 cnt).2.1.length = ds.count true ∧
      (stepEnvs ds es ps as1 rs1 cnt).1.length = ds.length := by
  induction ds with
  | nil =>
    intro es ps as1 rs1 cnt he hp ha hr
    simp [stepEnvs_nil_dones]
  | cons d ds ih =>
    intro es ps as1 rs1 cnt he hp ha hr
    cases es with
    | nil => simp at he
    | cons e es =>
      cases ps with
      | nil => simp at hp
      | cons p ps =>
        cases as1 with
        | nil => simp at ha
        | cons a as1 =>
          cases rs1 with
          | nil => simp at hr
          | cons r rs1 =>
            simp only [List.length_cons, Nat.succ.injEq] at he hp ha hr
            cases d with
            | false =>
              obtain ⟨ih1, ih2⟩ := ih es ps as1 rs1 cnt he hp ha hr
              rw [stepEnvs_cont]
              simp [ih1, ih2, List.count_cons]
            | true =>
              obtain ⟨ih1, ih2⟩ := ih es ps as1 rs1 (cnt + 1) he hp ha hr
              rw [stepEnvs_done]
              simp [ih1, ih2, List.count_cons]

/-! ### Simulation between the full chain and the buffering-only reference -/

/-- The state the full chain reaches in one step projects to the state the
buffering layer alone reaches: the substitution layer changes only what it
hands outward, never what the recording layer stores. -/
lemma chainStep_proj (core : VecEnvCore) (rf : RewardFn) (st : ChainState) (acts : List Act) :
    proj (chainStep core rf st acts).1 = (bufStep core (proj st) acts).1 := by
  cases h : rf st.lastObsRw acts (core.stepFn st.envT acts).1 (core.stepFn st.envT acts).2.2 <;>
    simp [chainStep, bufStep, proj, h]

/-- A successful chain step hands the algorithm the raw environment's next
observations. -/
lemma chainStep_ok_out (core : VecEnvCore) (rf : RewardFn) (st : ChainState)
    (acts : List Act) (out : List Obs × List Int × List Bool)
    (h : (chainStep core rf st acts).2 = .ok out) :
    out.1 = (core.stepFn st.envT acts).1 := by
  cases hrf : rf st.lastObsRw acts (core.stepFn st.envT acts).1 (core.stepFn st.envT acts).2.2 <;>
    simp [chainStep, hrf] at h
  rw [← h]

/-- If the reward function never raises, a chain step never raises. -/
lemma chainStep_ok_of_rf (core : VecEnvCore) (rf : RewardFn) (st : ChainState)
    (acts : List Act) (hrf : ∀ o ac nx dn, (rf o ac nx dn).isOk = true) :
    ∃ out, (chainStep core rf st acts).2 = .ok out := by
  cases hr : rf st.lastObsRw acts (core.stepFn st.envT acts).1 (core.stepFn st.envT acts).2.2 with
  | error e =>
    have := hrf st.lastObsRw acts (core.stepFn st.envT acts).1 (core.stepFn st.envT acts).2.2
    rw [hr] at this
    simp [Except.isOk, Except.toBool] at this
  | ok sub =>
    exact ⟨((core.stepFn st.envT acts).1, sub, (core.stepFn st.envT acts).2.2),
      by simp [chainStep, hr]⟩

/-- A successful `learn` leaves the recording layer exactly where driving it
without the substitution layer would: the buffered trajectories carry the
environment's true rewards. -/
lemma learnLoop_ok_proj (core : VecEnvCore) (rf : RewardFn) (a : Algorithm) (k : KwArgs) :
    ∀ (m i : Nat) (obs : List Obs) (st st' : ChainState),
      learnLoop core rf a k m i obs st = (st', .ok ()) →
      proj st' = bufLoop core a k m i obs (proj st) := by
  intro m
  induction m with
  | zero =>
    intro i obs st st' h
    simp [learnLoop] at h
    rw [← h, bufLoop]
  | succ m ih =>
    intro i obs st st' h
    by_cases hf : a.failAt = some i
    · simp [learnLoop, hf] at h
    · rcases hcs : chainStep core rf st (a.act k i obs) with ⟨stc, res⟩
      rw [learnLoop] at h
      simp only [hf, if_false, if_neg, hcs] at h
      cases res with
      | error e => simp at h
      | ok out =>
        have h1 := chainStep_proj core rf st (a.act k i obs)
        rw [hcs] at h1
        have h2 : out.1 = (core.stepFn st.envT (a.act k i obs)).1 :=
          chainStep_ok_out core rf st (a.act k i obs) out (by rw [hcs])
        have h3 := ih (i + 1) out.1 stc st' h
        rw [bufLoop]
        have h4 : (bufStep core (proj st) (a.act k i obs)).2.1 =
            (core.stepFn st.envT (a.act k i obs)).1 := rfl
        rw [h4, ← h2, ← h1]
        exact h3

/-- The recording run finalizes exactly one trajectory per done flag the
environment emits. -/
lemma bufLoop_count (core : VecEnvCore) (a : Algorithm) (k : KwArgs)
    (hWF : core.WF) (hact : actWF a core) :
    ∀ (m i : Nat) (obs : List Obs) (st : BufState),
      st.eps.length = core.numEnvs → st.lastObs.length = core.numEnvs → st.envT = i →
      (bufLoop core a k m i obs st).queue.length
        = st.queue.length + ((rawTrace core a k m i obs).map (fun x => x.2.2.count true)).sum := by
  intro m
  induction m with
  | zero => intro i obs st _ _ _; simp [bufLoop, rawTrace]
  | succ m ih =>
    intro i obs st heps hobs ht
    subst ht
    obtain ⟨hres, hstep⟩ := hWF
    obtain ⟨hs1, hs2, hs3⟩ := hstep st.envT (a.act k st.envT obs)
    obtain ⟨hlen1, hlen2⟩ := stepEnvs_len (core.stepFn st.envT (a.act k st.envT obs)).2.2
      st.eps st.lastObs (a.act k st.envT obs) (core.stepFn st.envT (a.act k st.envT obs)).2.1
      st.created
      (by rw [heps, hs3]) (by rw [hobs, hs3]) (by rw [hact k st.envT obs, hs3])
      (by rw [hs2, hs3])
    rw [bufLoop, rawTrace]
    rw [ih (st.envT + 1) _ _ (by simpa [bufStep] using hlen2.trans hs3)
        (by simp [bufStep, hs1]) (by simp [bufStep])]
    simp [bufStep, hlen1]
    omega

/-- Across a recording run, the ghost id counter only grows, and every queued
trajectory either was queued before the run or is a terminal trajectory whose
id lies in the window the counter moved through during the run. -/
lemma bufLoop_ids (core : VecEnvCore) (a : Algorithm) (k : KwArgs) :
    ∀ (m i : Nat) (obs : List Obs) (st : BufState),
      st.created ≤ (bufLoop core a k m i obs st).created ∧
      ∀ tr ∈ (bufLoop core a k m i obs st).queue,
        tr ∈ st.queue ∨
        (st.created ≤ tr.tid ∧ tr.tid < (bufLoop core a k m i obs st).created ∧
         tr.terminal = true) := by
  intro m
  induction m with
  | zero =>
    intro i obs st
    exact ⟨Nat.le_refl _, fun tr h => Or.inl h⟩
  | succ m ih =>
    intro i obs st
    rw [bufLoop]
    obtain ⟨ihc, ihq⟩ := ih (i + 1) (bufStep core st (a.act k i obs)).2.1
      (bufStep core st (a.act k i obs)).1
    obtain ⟨sc, sq⟩ := stepEnvs_ids (core.stepFn st.envT (a.act k i obs)).2.2
      st.eps st.lastObs (a.act k i obs) (core.stepFn st.envT (a.act k i obs)).2.1 st.created
    have hc1 : (bufStep core st (a.act k i obs)).1.created =
        (stepEnvs (core.stepFn st.envT (a.act k i obs)).2.2 st.eps st.lastObs
          (a.act k i obs) (core.stepFn st.envT (a.act k i obs)).2.1 st.created).2.2 := rfl
    have hq1 : (bufStep core st (a.act k i obs)).1.queue =
        st.queue ++ (stepEnvs (core.stepFn st.envT (a.act k i obs)).2.2 st.eps st.lastObs
          (a.act k i obs) (core.stepFn st.envT (a.act k i obs)).2.1 st.created).2.1 := rfl
    refine ⟨by omega, ?_⟩
    intro tr h
    rcases ihq tr h with h' | h'
    · rw [hq1] at h'
      rcases List.mem_append.mp h' with h'' | h''
      · exact Or.inl h''
      · obtain ⟨⟨hl, hr⟩, hterm⟩ := sq tr h''
        exact Or.inr ⟨hl, by omega, hterm⟩
    · obtain ⟨hl, hr, hterm⟩ := h'
      exact Or.inr ⟨by omega, hr, hterm⟩

/-- `learnLoop` consumes the forwarded keyword arguments only through the
algorithm's own use of them. -/
lemma learnLoop_k_congr (core : VecEnvCore) (rf : RewardFn) (a : Algorithm)
    (k1 k2 : KwArgs) (hk : ∀ i obs, a.act k1 i obs = a.act k2 i obs) :
    ∀ (m i : Nat) (obs : List Obs) (st : ChainState),
      learnLoop core rf a k1 m i obs st = learnLoop core rf a k2 m i obs st := by
  intro m
  induction m with
  | zero => intro i obs st; rfl
  | succ m ih =>
    intro i obs st
    rw [learnLoop, learnLoop, hk i obs]
    by_cases hf : a.failAt = some i
    · simp [hf]
    · simp only [hf, if_false, if_neg]
      rcases hcs : chainStep core rf st (a.act k2 i obs) with ⟨stc, res⟩
      cases res with
      | error e => rfl
      | ok out => exact ih (i + 1) out.1 stc

/-- If the reward function never raises and the algorithm's injected failure
point lies beyond the steps performed, `learn` returns normally. -/
lemma learnLoop_ok (core : VecEnvCore) (rf : RewardFn) (a : Algorithm) (k : KwArgs)
    (hrf : ∀ o ac nx dn, (rf o ac nx dn).isOk = true) :
    ∀ (m i : Nat) (obs : List Obs) (st : ChainState),
      (∀ x, a.failAt = some x → i + m ≤ x) →
      (learnLoop core rf a k m i obs st).2 = .ok () := by
  intro m
  induction m with
  | zero => intro i obs st _; rfl
  | succ m ih =>
    intro i obs st hfa
    rw [learnLoop]
    by_cases hf : a.failAt = some i
    · have := hfa i hf; omega
    · simp only [hf, if_false, if_neg]
      obtain ⟨out, hout⟩ := chainStep_ok_of_rf core rf st (a.act k i obs) hrf
      rcases hcs : chainStep core rf st (a.act k i obs) with ⟨stc, res⟩
      rw [hcs] at hout
      cases res with
      | error e => simp at hout
      | ok out' => exact ih (i + 1) out'.1 stc (fun x hx => by have := hfa x hx; omega)

/-- `learn` with a failure injected at offset `j < m` raises exactly the
algorithm's error, leaving the chain in the state a clean `j`-step run
reaches — no cleanup or rollback happens. -/
lemma learnLoop_fail (core : VecEnvCore) (rf : RewardFn) (a : Algorithm) (k : KwArgs)
    (hrf : ∀ o ac nx dn, (rf o ac nx dn).isOk = true) :
    ∀ (j m i : Nat) (obs : List Obs) (st : ChainState),
      j < m → a.failAt = some (i + j) →
      learnLoop core rf a k m i obs st =
        ((learnLoop core rf a k j i obs st).1, .error a.errMsg) := by
  intro j
  induction j with
  | zero =>
    intro m i obs st hm hfa
    cases m with
    | zero => omega
    | succ m => simp at hfa; simp [learnLoop, hfa]
  | succ j ih =>
    intro m i obs st hm hfa
    cases m with
    | zero => omega
    | succ m =>
      have hf : ¬ a.failAt = some i := by
        rw [hfa]; intro hc
        have := Option.some.inj hc
        omega
      rw [learnLoop, learnLoop]
      simp only [hf, if_false, if_neg]
      rcases hcs : chainStep core rf st (a.act k i obs) with ⟨stc, res⟩
      obtain ⟨out, hout⟩ := chainStep_ok_of_rf core rf st (a.act k i obs) hrf
      rw [hcs] at hout
      cases res with
      | error e => simp at hout
      | ok out' =>
        exact ih m (i + 1) out'.1 stc (by omega) (by rw [hfa]; congr 1; omega)

/-! ### Frame lemmas for trainer operations -/

/-- `train` and the drain modify only the wrapper state: the algorithm, the
bound reward function, the two wrapper instances and the raw dynamics are
untouched. -/
lemma applyOp_frame (t : AgentTrainer) (op : TrainerOp) :
    (applyOp t op).algorithm = t.algorithm ∧ (applyOp t op).reward_fn = t.reward_fn ∧
    (applyOp t op).buffering_wrapper = t.buffering_wrapper ∧
    (applyOp t op).venv = t.venv ∧ (applyOp t op).origEnv = t.origEnv := by
  cases op with
  | pop => simp [applyOp, AgentTrainer.popTrajectories]
  | train n k =>
    rcases h : learnLoop t.origEnv t.reward_fn t.algorithm k n 0 t.origEnv.resetObs
        (chainReset t.origEnv t.chain) with ⟨st1, res⟩
    cases res with
    | error e => simp [applyOp, AgentTrainer.train, h]
    | ok u => simp [applyOp, AgentTrainer.train, h, AgentTrainer.popTrajectories]

/-- Iterated version of `applyOp_frame`. -/
lemma applyOps_frame (ops : List TrainerOp) :
    ∀ t : AgentTrainer,
      (applyOps t ops).algorithm = t.algorithm ∧ (applyOps t ops).reward_fn = t.reward_fn ∧
      (applyOps t ops).buffering_wrapper = t.buffering_wrapper ∧
      (applyOps t ops).venv = t.venv ∧ (applyOps t ops).origEnv = t.origEnv := by
  induction ops with
  | nil => intro t; exact ⟨rfl, rfl, rfl, rfl, rfl⟩
  | cons op ops ih =>
    intro t
    obtain ⟨h1, h2, h3, h4, h5⟩ := applyOp_frame t op
    obtain ⟨g1, g2, g3, g4, g5⟩ := ih (applyOp t op)
    exact ⟨g1.trans h1, g2.trans h2, g3.trans h3, g4.trans h4, g5.trans h5⟩

/-! ### Characterization of a successful `train` call -/

/-- A successful `train` returns exactly the queue of the substitution-free
recording run. -/
lemma train_ok_queue (t : AgentTrainer) (n : Nat) (k : KwArgs)
    (l : List TrajectoryWithRew) (h : (t.train n k).1 = .ok l) :
    l = bufOnlyTrajectories t.origEnv t.algorithm k n t.chain.created := by
  rcases hl : learnLoop t.origEnv t.reward_fn t.algorithm k n 0 t.origEnv.resetObs
      (chainReset t.origEnv t.chain) with ⟨st1, res⟩
  cases res with
  | error e => simp [AgentTrainer.train, hl] at h
  | ok u =>
    cases u
    have hproj := learnLoop_ok_proj t.origEnv t.reward_fn t.algorithm k n 0
      t.origEnv.resetObs (chainReset t.origEnv t.chain) st1 hl
    simp [AgentTrainer.train, hl, AgentTrainer.popTrajectories] at h
    have hq := congrArg BufState.queue hproj
    rw [← h]
    exact hq

/-- Every trajectory a successful `train` returns is terminal, and its ghost
id lies in the window the id counter moved through during the call. -/
lemma train_ok_ids (t : AgentTrainer) (n : Nat) (k : KwArgs)
    (l : List TrajectoryWithRew) (h : (t.train n k).1 = .ok l) :
    t.chain.created ≤ ((t.train n k).2).chain.created ∧
    ∀ tr ∈ l, t.chain.created ≤ tr.tid ∧ tr.tid < ((t.train n k).2).chain.created ∧
      tr.terminal = true := by
  rcases hl : learnLoop t.origEnv t.reward_fn t.algorithm k n 0 t.origEnv.resetObs
      (chainReset t.origEnv t.chain) with ⟨st1, res⟩
  cases res with
  | error e => simp [AgentTrainer.train, hl] at h
  | ok u =>
    cases u
    have hproj := learnLoop_ok_proj t.origEnv t.reward_fn t.algorithm k n 0
      t.origEnv.resetObs (chainReset t.origEnv t.chain) st1 hl
    obtain ⟨hc, hq⟩ := bufLoop_ids t.origEnv t.algorithm k n 0 t.origEnv.resetObs
      (proj (chainReset t.origEnv t.chain))
    rw [← hproj] at hc hq
    simp [AgentTrainer.train, hl, AgentTrainer.popTrajectories] at h ⊢
    rw [← h]
    have hcre : (proj (chainReset t.origEnv t.chain)).created = t.chain.created := rfl
    rw [hcre] at hc hq
    refine ⟨hc, ?_⟩
    intro tr htr
    rcases hq tr htr with h' | h'
    · simp [proj, chainReset] at h'
    · exact ⟨h'.1, h'.2.1, h'.2.2⟩

/-- C1: for every orchestrator and every reward source, a successful `train`
returns exactly the trajectories the recording layer would produce with no
substitution layer present — every returned trajectory carries the original
environment reward sequence, never the substituted values, because the
recording layer sits beneath the substitution layer.  The right-hand side
does not mention the bound reward function at all, so the returned list is
the same for every reward source whose run succeeds. -/
theorem c1_trajectories_carry_true_rewards (t : AgentTrainer) (n : Nat) (k : KwArgs)
    (l : List TrajectoryWithRew) (h : (t.train n k).1 = .ok l) :
    l = bufOnlyTrajectories t.origEnv t.algorithm k n t.chain.created :=
  train_ok_queue t n k l h

/-- C2: the algorithm's environment handle after construction is the
RewardVecEnvWrapper created at construction, which wraps the BufferingWrapper
created at construction, which wraps the original environment handle; no
sequence of `train` and drain operations ever changes the handle or either
wrapper. -/
theorem c2_wrapping_order_invariant (a : Algorithm) (v : Env) (rs : RewardSource)
    (t : AgentTrainer) (ops : List TrainerOp)
    (henv : a.env = some v) (h : (AgentTrainer.initCore a rs).1 = .ok t) :
    t.venv = .rewardVecEnvWrapper (.bufferingWrapper v) t.reward_fn ∧
    t.buffering_wrapper = .bufferingWrapper v ∧
    t.algorithm.env = some t.venv ∧
    (applyOps t ops).algorithm.env = some t.venv ∧
    (applyOps t ops).venv = t.venv ∧
    (applyOps t ops).buffering_wrapper = t.buffering_wrapper := by
  obtain ⟨f1, _, f3, f4, _⟩ := applyOps_frame ops t
  cases hv : v.isVecEnv with
  | false => simp [AgentTrainer.initCore, henv, hv] at h
  | true =>
    simp [AgentTrainer.initCore, henv, hv] at h
    rw [← h]
    rw [← h] at f1 f3 f4
    refine ⟨rfl, rfl, rfl, ?_, f4, f3⟩
    rw [f1]

/-- C3: two sequential successful `train` calls never return overlapping
trajectories — the ghost object ids of the first returned list are disjoint
from those of the second, because the drain clears the queue and ids are
never reused. -/
theorem c3_sequential_trains_disjoint (t : AgentTrainer) (n1 n2 : Nat) (k1 k2 : KwArgs)
    (l1 l2 : List TrajectoryWithRew)
    (h1 : (t.train n1 k1).1 = .ok l1)
    (h2 : (((t.train n1 k1).2).train n2 k2).1 = .ok l2) :
    (l1.map (fun x => x.tid)).inter (l2.map (fun x => x.tid)) = [] := by
  obtain ⟨hm1, hq1⟩ := train_ok_ids t n1 k1 l1 h1
  obtain ⟨hm2, hq2⟩ := train_ok_ids ((t.train n1 k1).2) n2 k2 l2 h2
  apply List.inter_eq_nil_iff_disjoint.mpr
  intro x hx hx2
  obtain ⟨tr1, htr1, rfl⟩ := List.mem_map.mp hx
  obtain ⟨tr2, htr2, heq⟩ := List.mem_map.mp hx2
  obtain ⟨_, hlt, _⟩ := hq1 tr1 htr1
  obtain ⟨hge, _, _⟩ := hq2 tr2 htr2
  omega

/-- The recording run from reset finalizes one trajectory per done flag. -/
lemma bufOnly_length (core : VecEnvCore) (a : Algorithm) (k : KwArgs) (n c0 : Nat)
    (hWF : core.WF) (hact : actWF a core) :
    (bufOnlyTrajectories core a k n c0).length = doneCountN core a k n := by
  unfold bufOnlyTrajectories doneCountN
  rw [bufLoop_count core a k hWF hact n 0 core.resetObs _ (by simp) hWF.1 rfl]
  simp

/-- C4: for every trainer, a successful `train` returns exactly one
trajectory per done=true transition observed across all sub-environments
during the call, and only finished (terminal) episodes — an episode still in
progress at the end of the call is not in the list. -/
theorem c4_one_trajectory_per_done (t : AgentTrainer) (n : Nat) (k : KwArgs)
    (l : List TrajectoryWithRew)
    (hWF : t.origEnv.WF) (hact : actWF t.algorithm t.origEnv)
    (h : (t.train n k).1 = .ok l) :
    l.length = doneCountN t.origEnv t.algorithm k n ∧
    l.all (fun tr => tr.terminal) = true := by
  constructor
  · rw [train_ok_queue t n k l h]
    exact bufOnly_length t.origEnv t.algorithm k n t.chain.created hWF hact
  · rw [List.all_eq_true]
    intro tr htr
    exact (((train_ok_ids t n k l h).2 tr htr).2.2 : tr.terminal = true)

/-- C5: `train` is reset-then-learn-then-drain.  First conjunct: the initial
reset discards all prior wrapper state (any not-yet-finalized episode and any
already-queued residue), so the call's entire outcome is independent of it
(the ghost id counter, which models object identity rather than program
state, is held fixed).  Second conjunct: the keyword arguments are forwarded
opaquely — the call depends on them only through the algorithm's own use of
them.  Third conjunct: the final drain leaves the buffer queue empty on
success. -/
theorem c5_reset_learn_drain (t : AgentTrainer) (c' : ChainState) (n : Nat) (k k2 : KwArgs)
    (hc : c'.created = t.chain.created)
    (hk : ∀ i obs, t.algorithm.act k i obs = t.algorithm.act k2 i obs) :
    AgentTrainer.train { t with chain := c' } n k = t.train n k ∧
    t.train n k = t.train n k2 ∧
    ((t.train n k).1.isOk = true → ((t.train n k).2).chain.queue = []) := by
  have hr : chainReset t.origEnv c' = chainReset t.origEnv t.chain := by
    simp [chainReset, hc]
  refine ⟨?_, ?_, ?_⟩
  · show AgentTrainer.train { t with chain := c' } n k = t.train n k
    unfold AgentTrainer.train
    rw [hr]
  · unfold AgentTrainer.train
    simp only [learnLoop_k_congr t.origEnv t.reward_fn t.algorithm k k2 hk]
  · rcases hl : learnLoop t.origEnv t.reward_fn t.algorithm k n 0 t.origEnv.resetObs
        (chainReset t.origEnv t.chain) with ⟨st1, res⟩
    cases res with
    | error e => simp [AgentTrainer.train, hl, Except.isOk, Except.toBool]
    | ok u => simp [AgentTrainer.train, hl, AgentTrainer.popTrajectories]

/-- C6: constructing the trainer from an algorithm whose environment is
absent or not vectorized raises the configuration `ValueError` synchronously,
and the algorithm comes back exactly as it went in — its environment binding
is untouched. -/
theorem c6_config_error_leaves_algorithm (a : Algorithm) (rs : RewardSource)
    (h : isVecEnvInstance a.env = false) :
    AgentTrainer.initCore a rs =
      (.error "The environment for the agent algorithm must be set.", a) := by
  cases henv : a.env with
  | none => simp [AgentTrainer.initCore, henv]
  | some v =>
    rw [henv] at h
    simp only [isVecEnvInstance] at h
    simp [AgentTrainer.initCore, henv, h]

/-- C7: when the algorithm's learning procedure raises during `train`, the
error reaches the caller unmodified (first conjunct), no cleanup or rollback
happens — draining the trainer after the failure still returns one queued
trajectory per done flag observed before the failure point (second
conjunct), and that drain returns exactly the buffer contents at failure
time (third conjunct). -/
theorem c7_learn_error_propagates (t : AgentTrainer) (n j : Nat) (k : KwArgs)
    (hWF : t.origEnv.WF) (hact : actWF t.algorithm t.origEnv)
    (hrf : ∀ o ac nx dn, (t.reward_fn o ac nx dn).isOk = true)
    (hfa : t.algorithm.failAt = some j) (hj : j < n) :
    (t.train n k).1 = .error t.algorithm.errMsg ∧
    (((t.train n k).2).popTrajectories).1.length = doneCountN t.origEnv t.algorithm k j ∧
    (((t.train n k).2).popTrajectories).1 = ((t.train n k).2).chain.queue := by
  have hfl := learnLoop_fail t.origEnv t.reward_fn t.algorithm k hrf j n 0
    t.origEnv.resetObs (chainReset t.origEnv t.chain) hj (by simpa using hfa)
  rcases hLj : learnLoop t.origEnv t.reward_fn t.algorithm k j 0 t.origEnv.resetObs
      (chainReset t.origEnv t.chain) with ⟨stJ, resJ⟩
  have hok := learnLoop_ok t.origEnv t.reward_fn t.algorithm k hrf j 0
    t.origEnv.resetObs (chainReset t.origEnv t.chain)
    (fun x hx => by rw [hfa] at hx; injection hx with hx; omega)
  rw [hLj] at hok hfl
  cases resJ with
  | error e => simp at hok
  | ok u =>
    cases u
    have hproj := learnLoop_ok_proj t.origEnv t.reward_fn t.algorithm k j 0
      t.origEnv.resetObs (chainReset t.origEnv t.chain) stJ hLj
    have hcount := bufLoop_count t.origEnv t.algorithm k hWF hact j 0
      t.origEnv.resetObs (proj (chainReset t.origEnv t.chain)) (by simp [proj, chainReset])
      (by simp [proj, chainReset, hWF.1]) rfl
    rw [← hproj] at hcount
    refine ⟨?_, ?_, ?_⟩
    · simp [AgentTrainer.train, hfl]
    · simp only [AgentTrainer.train, hfl]
      simpa [AgentTrainer.popTrajectories, proj, chainReset, doneCountN] using hcount
    · rfl

/-- The reward function a successful construction from a model-shaped source
stores is the model's `predict` method. -/
lemma initCore_reward_fn_net (a : Algorithm) (nn : RewardNet) (t : AgentTrainer)
    (h : (AgentTrainer.initCore a (.net nn)).1 = .ok t) :
    t.reward_fn = nn.predict := by
  cases henv : a.env with
  | none => simp [AgentTrainer.initCore, henv] at h
  | some v =>
    cases hv : v.isVecEnv with
    | false => simp [AgentTrainer.initCore, henv, hv] at h
    | true =>
      simp [AgentTrainer.initCore, henv, hv] at h
      rw [← h]

/-- C8: a model-shaped and a function-shaped reward source that agree as
batch maps produce identical trainers — in particular numerically identical
substituted rewards on every transition batch — and the adaptation is
resolved exactly once, at construction: no sequence of operations ever
changes the bound reward function. -/
theorem c8_uniform_reward_adaptation (a : Algorithm) (nn : RewardNet) (f : RewardFn)
    (t : AgentTrainer) (ops : List TrainerOp)
    (o : List Obs) (ac : List Act) (nx : List Obs) (dn : List Bool)
    (hpred : nn.predict = f)
    (h : (AgentTrainer.initCore a (.net nn)).1 = .ok t) :
    AgentTrainer.initCore a (.net nn) = AgentTrainer.initCore a (.fn f) ∧
    t.reward_fn o ac nx dn = f o ac nx dn ∧
    (applyOps t ops).reward_fn = t.reward_fn := by
  subst hpred
  refine ⟨rfl, ?_, (applyOps_frame ops t).2.1⟩
  rw [initCore_reward_fn_net a nn t h]

/-- C9: the `policy` accessor is a pure read that always reports exactly the
algorithm's `policy` attribute — immediately after construction (where the
algorithm's policy is the one passed in) and after any sequence of `train`
and drain operations, none of which touch it. -/
theorem c9_policy_accessor_stable (a : Algorithm) (rs : RewardSource) (t : AgentTrainer)
    (ops : List TrainerOp) (h : (AgentTrainer.initCore a rs).1 = .ok t) :
    t.policy = t.algorithm.policy ∧
    t.policy = a.policy ∧
    (applyOps t ops).policy = (applyOps t ops).algorithm.policy ∧
    (applyOps t ops).policy = t.policy := by
  have hpol : t.algorithm.policy = a.policy := by
    cases henv : a.env with
    | none => simp [AgentTrainer.initCore, henv] at h
    | some v =>
      cases hv : v.isVecEnv with
      | false => simp [AgentTrainer.initCore, henv, hv] at h
      | true =>
        simp [AgentTrainer.initCore, henv, hv] at h
        rw [← h]
  refine ⟨rfl, hpol, rfl, ?_⟩
  show (applyOps t ops).algorithm.policy = t.algorithm.policy
  rw [(applyOps_frame ops t).1]

/-- C10: construction never invokes the reward source's compute capability —
it succeeds even for a reward function that raises on every invocation, and
for every reward model the only thing taken from it is its `predict` method,
which is stored, not called. -/
theorem c10_construction_never_calls_reward (a : Algorithm) (e : String) (nn : RewardNet)
    (h : isVecEnvInstance a.env = true) :
    (AgentTrainer.initCore a (.fn (fun _ _ _ _ => .error e))).1.isOk = true ∧
    (AgentTrainer.initCore a (.net nn)).1.map (fun t => t.reward_fn) = .ok nn.predict := by
  cases henv : a.env with
  | none => rw [henv] at h; simp [isVecEnvInstance] at h
  | some v =>
    rw [henv] at h
    simp only [isVecEnvInstance] at h
    constructor
    · simp [AgentTrainer.initCore, henv, h, Except.isOk, Except.toBool]
    · simp [AgentTrainer.initCore, henv, h, Except.map]

/-! ### Concrete witnesses -/

/-- The trajectories `demoTrainer.train 4 []` returns. -/
def demoTrajs : List TrajectoryWithRew :=
  [⟨[10, 100], [0, 1], [0, 1], true, 0⟩,
   ⟨[20, 200, 201], [0, 0, 0], [3, 4, 5], true, 1⟩,
   ⟨[101, 102], [2, 3], [4, 9], true, 2⟩]

/-- The trajectories a second `train 4 []` returns: same episodes, fresh ids. -/
def demoTrajs2 : List TrajectoryWithRew :=
  [⟨[10, 100], [0, 1], [0, 1], true, 3⟩,
   ⟨[20, 200, 201], [0, 0, 0], [3, 4, 5], true, 4⟩,
   ⟨[101, 102], [2, 3], [4, 9], true, 5⟩]

/-- `demoAlg` with a failure injected before its third learning step. -/
def demoAlgFail : Algorithm := { demoAlg with failAt := some 2 }

/-- The trainer constructed from `demoAlgFail` with `demoRf`. -/
def demoTrainerFail : AgentTrainer where
  algorithm :=
    { demoAlgFail with
      env := some (.rewardVecEnvWrapper (.bufferingWrapper (.vecEnv demoCore)) demoRf) }
  reward_fn := demoRf
  buffering_wrapper := .bufferingWrapper (.vecEnv demoCore)
  venv := .rewardVecEnvWrapper (.bufferingWrapper (.vecEnv demoCore)) demoRf
  origEnv := demoCore
  chain := { envT := 0, lastObsBuf := [], eps := [], queue := [], lastObsRw := [], created := 0 }

/-- Stale wrapper state: mid-episode accumulators and a queued leftover. -/
def demoChainJunk : ChainState :=
  { envT := 9, lastObsBuf := [5], eps := [⟨[1], [2], [3]⟩],
    queue := [⟨[1], [1], [1], true, 7⟩], lastObsRw := [5], created := 0 }

/-- `demoAlg` with no environment bound. -/
def demoAlgNoEnv : Algorithm := { demoAlg with env := none }

/-- `demoRf` packaged as a reward model. -/
def demoNet : RewardNet := ⟨demoRf⟩

/-- Witness for C1 at `demoTrainer`, 4 steps: the returned trajectories are
the substitution-free recording, carrying true rewards (0,1 / 3,4,5 / 4,9 —
never the substituted constant 1000). -/
theorem c1_witness :
    demoTrajs = bufOnlyTrajectories demoTrainer.origEnv demoTrainer.algorithm [] 4
      demoTrainer.chain.created :=
  c1_trajectories_carry_true_rewards demoTrainer 4 [] demoTrajs rfl

/-- Witness for C2 at `demoTrainer` after a `train` and a drain. -/
theorem c2_witness :
    demoTrainer.venv =
      .rewardVecEnvWrapper (.bufferingWrapper (.vecEnv demoCore)) demoTrainer.reward_fn ∧
    demoTrainer.buffering_wrapper = .bufferingWrapper (.vecEnv demoCore) ∧
    demoTrainer.algorithm.env = some demoTrainer.venv ∧
    (applyOps demoTrainer [TrainerOp.train 3 [], TrainerOp.pop]).algorithm.env =
      some demoTrainer.venv ∧
    (applyOps demoTrainer [TrainerOp.train 3 [], TrainerOp.pop]).venv = demoTrainer.venv ∧
    (applyOps demoTrainer [TrainerOp.train 3 [], TrainerOp.pop]).buffering_wrapper =
      demoTrainer.buffering_wrapper :=
  c2_wrapping_order_invariant demoAlg (.vecEnv demoCore) (.fn demoRf) demoTrainer
    [TrainerOp.train 3 [], TrainerOp.pop] rfl rfl

/-- Witness for C3: the id sets of two sequential `train 4 []` calls are
disjoint. -/
theorem c3_witness :
    (demoTrajs.map (fun x => x.tid)).inter (demoTrajs2.map (fun x => x.tid)) = [] :=
  c3_sequential_trains_disjoint demoTrainer 4 4 [] [] demoTrajs demoTrajs2 rfl rfl

/-- Witness for C4: three done flags in four steps, three trajectories, all
terminal. -/
theorem c4_witness :
    demoTrajs.length = doneCountN demoTrainer.origEnv demoTrainer.algorithm [] 4 ∧
    demoTrajs.all (fun tr => tr.terminal) = true :=
  c4_one_trajectory_per_done demoTrainer 4 [] demoTrajs
    ⟨rfl, fun _ _ => ⟨rfl, rfl, rfl⟩⟩ (fun _ _ _ => rfl) rfl

/-- Witness for C5: stale buffered state never leaks into a `train` call, the
keyword arguments pass through opaquely, and the drain leaves the queue
empty. -/
theorem c5_witness :
    AgentTrainer.train { demoTrainer with chain := demoChainJunk } 3 [("lr", 1)] =
      demoTrainer.train 3 [("lr", 1)] ∧
    demoTrainer.train 3 [("lr", 1)] = demoTrainer.train 3 [] ∧
    ((demoTrainer.train 3 [("lr", 1)]).2).chain.queue = [] := by
  obtain ⟨w1, w2, w3⟩ := c5_reset_learn_drain demoTrainer demoChainJunk 3 [("lr", 1)] []
    rfl (fun _ _ => rfl)
  exact ⟨w1, w2, w3 rfl⟩

/-- Witness for C6: construction from an algorithm with no bound environment
fails with the configuration error and returns the algorithm unchanged. -/
theorem c6_witness :
    AgentTrainer.initCore demoAlgNoEnv (.fn demoRf) =
      (.error "The environment for the agent algorithm must be set.", demoAlgNoEnv) :=
  c6_config_error_leaves_algorithm demoAlgNoEnv (.fn demoRf) rfl

/-- Witness for C7: with a failure injected before step 2 of 4, `train`
raises "boom" and a drain after the failure still returns the one trajectory
finalized before it. -/
theorem c7_witness :
    (demoTrainerFail.train 4 []).1 = .error demoTrainerFail.algorithm.errMsg ∧
    (((demoTrainerFail.train 4 []).2).popTrajectories).1.length =
      doneCountN demoTrainerFail.origEnv demoTrainerFail.algorithm [] 2 ∧
    (((demoTrainerFail.train 4 []).2).popTrajectories).1 =
      ((demoTrainerFail.train 4 []).2).chain.queue :=
  c7_learn_error_propagates demoTrainerFail 4 2 []
    ⟨rfl, fun _ _ => ⟨rfl, rfl, rfl⟩⟩ (fun _ _ _ => rfl) (fun _ _ _ _ => rfl) rfl
    (by decide)

/-- Witness for C8 at `demoNet` and `demoRf`, which agree definitionally. -/
theorem c8_witness :
    AgentTrainer.initCore demoAlg (.net demoNet) =
      AgentTrainer.initCore demoAlg (.fn demoRf) ∧
    demoTrainer.reward_fn [1] [2] [3] [true] = demoRf [1] [2] [3] [true] ∧
    (applyOps demoTrainer [TrainerOp.train 2 []]).reward_fn = demoTrainer.reward_fn :=
  c8_uniform_reward_adaptation demoAlg demoNet demoRf demoTrainer [TrainerOp.train 2 []]
    [1] [2] [3] [true] rfl rfl

/-- Witness for C9 at `demoTrainer` after a `train` and a drain. -/
theorem c9_witness :
    demoTrainer.policy = demoTrainer.algorithm.policy ∧
    demoTrainer.policy = demoAlg.policy ∧
    (applyOps demoTrainer [TrainerOp.train 2 [], TrainerOp.pop]).policy =
      (applyOps demoTrainer [TrainerOp.train 2 [], TrainerOp.pop]).algorithm.policy ∧
    (applyOps demoTrainer [TrainerOp.train 2 [], TrainerOp.pop]).policy =
      demoTrainer.policy :=
  c9_policy_accessor_stable demoAlg (.fn demoRf) demoTrainer
    [TrainerOp.train 2 [], TrainerOp.pop] rfl

/-- Witness for C10: construction succeeds even when the reward source raises
on every invocation, and a model-shaped source contributes exactly its
`predict` method. -/
theorem c10_witness :
    (AgentTrainer.initCore demoAlg (.fn (fun _ _ _ _ => .error "raise"))).1.isOk = true ∧
    (AgentTrainer.initCore demoAlg
        (.net ⟨fun _ _ _ _ => .error "raise"⟩)).1.map (fun t => t.reward_fn) =
      .ok (RewardNet.predict ⟨fun _ _ _ _ => .error "raise"⟩) :=
  c10_construction_never_calls_reward demoAlg "raise" ⟨fun _ _ _ _ => .error "raise"⟩ rfl

end Imitation
